import Mathlib

/-!
Verification development for the stock ingestion pipeline (the fetcher
program of the repository).  The Go source is embedded shallowly:

* `Stock` mirrors the `Stock` struct (all text fields).
* The single multi-row `INSERT … ON CONFLICT (ticker, time) DO UPDATE`
  statement of `attemptTransaction` is embedded as `upsertStmt` over a
  list-of-rows store: when the batch's own keys are distinct each row
  inserts or overwrites (`upsertRow` / `upsertBatch`), and when two rows
  of the batch share the conflict key the statement errors, as
  PostgreSQL/CockroachDB abort an `ON CONFLICT DO UPDATE` that would
  affect the same row twice.
* `retryWithBackoff`, `fetchStocks`, `fetchAllStocks`, `initDB`,
  `checkDBConnection`, `processBatch` and `saveStocks` are embedded as
  pure functions: every external effect (a network call, a transaction
  attempt, a connection attempt, a ping) is supplied as an outcome oracle,
  and observable actions (attempt counts, sleeps, connection checks,
  janitor invocations) are returned as explicit traces.  Mid-sync `initDB`
  re-runs — which drop and recreate the `stocks` table — are supplied to
  the sync loop as per-batch drop oracles.
-/

/-- Mirror of the Go `Stock` struct: one analyst rating event. -/
structure Stock where
  ticker : String
  company : String
  brokerage : String
  action : String
  rating_from : String
  rating_to : String
  target_from : String
  target_to : String
  time : String
deriving DecidableEq

/-- Character-list version of substring prefix test (helper for `contains`). -/
def prefMatch : List Char → List Char → Bool
  | [], _ => true
  | _ :: _, [] => false
  | a :: as, b :: bs => a == b && prefMatch as bs

/-- Character-list substring search (helper for `contains`). -/
def subMatch (needle : List Char) : List Char → Bool
  | [] => prefMatch needle []
  | b :: bs => prefMatch needle (b :: bs) || subMatch needle bs

/-- Mirror of the Go helper `contains`: empty haystack gives `false`,
otherwise `strings.Contains`. -/
def contains (s sub : String) : Bool :=
  if s == "" then false else subMatch sub.data s.data

/-- Composite-key comparison: the `(ticker, time)` primary key of the
`stocks` table. -/
def sameKey (a b : Stock) : Bool :=
  decide (a.ticker = b.ticker ∧ a.time = b.time)

/-- Semantics of the upsert statement of `attemptTransaction` for one row:
`INSERT ... ON CONFLICT (ticker, time) DO UPDATE SET` every non-key
column to the incoming value. -/
def upsertRow (store : List Stock) (r : Stock) : List Stock :=
  if store.any (fun s => sameKey s r) then
    store.map (fun s => if sameKey s r then r else s)
  else store ++ [r]

/-- Row-wise application of the upsert: the effect of the statement on a
batch whose own keys are distinct (each row then inserts or overwrites
independently, in order). -/
def upsertBatch (store : List Stock) (batch : List Stock) : List Stock :=
  batch.foldl upsertRow store


/-- The table invariant enforced by `PRIMARY KEY (ticker, time)`: no two
stored rows share the composite key. -/
def keysUnique : List Stock → Bool
  | [] => true
  | r :: rs => !(rs.any (fun s => sameKey s r)) && keysUnique rs

/-- The error PostgreSQL (via lib/pq) and CockroachDB raise when one
`INSERT … ON CONFLICT DO UPDATE` statement would affect the same row
twice. -/
def pgDupRowMsg : String :=
  "pq: ON CONFLICT DO UPDATE command cannot affect row a second time"

/-- Semantics of the single multi-row upsert statement of
`attemptTransaction`: all rows of the batch are bound to one
`INSERT … ON CONFLICT (ticker, time) DO UPDATE` statement, so two batch
rows sharing the conflict key abort the whole statement
(`pgDupRowMsg`); otherwise every row inserts or overwrites as an
upsert. -/
def upsertStmt (store batch : List Stock) : Except String (List Stock) :=
  if keysUnique batch then .ok (upsertBatch store batch)
  else .error pgDupRowMsg

theorem sameKey_refl (a : Stock) : sameKey a a = true := by
  simp [sameKey]

theorem sameKey_symm (a b : Stock) : sameKey a b = sameKey b a := by
  simp only [sameKey, decide_eq_decide]
  constructor <;> rintro ⟨h1, h2⟩ <;> exact ⟨h1.symm, h2.symm⟩

theorem sameKey_congr_right (x r : Stock) (h : sameKey x r = true) (y : Stock) :
    sameKey y r = sameKey y x := by
  simp only [sameKey, decide_eq_true_eq] at h
  obtain ⟨h1, h2⟩ := h
  simp only [sameKey, decide_eq_decide]
  rw [← h1, ← h2]

theorem sameKey_congr_left (x r : Stock) (h : sameKey x r = true) (y : Stock) :
    sameKey r y = sameKey x y := by
  rw [sameKey_symm r y, sameKey_symm x y]
  exact sameKey_congr_right x r h y

theorem keysUnique_cons (x : Stock) (xs : List Stock)
    (h : keysUnique (x :: xs) = true) :
    xs.any (fun s => sameKey s x) = false ∧ keysUnique xs = true := by
  simp only [keysUnique, Bool.and_eq_true, Bool.not_eq_true'] at h
  exact h

theorem upsertRow_pos (s : List Stock) (r : Stock)
    (h : s.any (fun y => sameKey y r) = true) :
    upsertRow s r = s.map (fun y => if sameKey y r then r else y) := by
  unfold upsertRow
  rw [h]
  simp

theorem upsertRow_neg (s : List Stock) (r : Stock)
    (h : s.any (fun y => sameKey y r) = false) :
    upsertRow s r = s ++ [r] := by
  unfold upsertRow
  rw [h]
  simp

theorem filter_upsertRow (r : Stock) :
    ∀ s : List Stock, keysUnique s = true →
      (upsertRow s r).filter (fun x => sameKey x r) = [r] := by
  intro s
  induction s with
  | nil =>
    intro _
    rw [upsertRow_neg [] r rfl]
    simp [List.filter, sameKey_refl]
  | cons x xs ih =>
    intro hu
    obtain ⟨hx, hxs⟩ := keysUnique_cons x xs hu
    have hallx : ∀ z ∈ xs, sameKey z x = false := by
      intro z hz
      simpa using List.any_eq_false.mp hx z hz
    by_cases hr : sameKey x r = true
    · have hnone : ∀ z ∈ xs, sameKey z r = false := by
        intro z hz
        rw [sameKey_congr_right x r hr z]
        exact hallx z hz
      have hany : (x :: xs).any (fun y => sameKey y r) = true := by
        simp [List.any_cons, hr]
      rw [upsertRow_pos _ _ hany, List.map_cons, if_pos hr]
      rw [List.filter_cons_of_pos (by simp [sameKey_refl])]
      have hrest : (xs.map fun y => if sameKey y r then r else y).filter
          (fun y => sameKey y r) = [] := by
        rw [List.filter_eq_nil_iff]
        intro a ha
        obtain ⟨z, hz, rfl⟩ := List.mem_map.mp ha
        simp [hnone z hz]
      rw [hrest]
    · have hrb : sameKey x r = false := by
        cases hc : sameKey x r
        · rfl
        · exact absurd hc hr
      by_cases hxa : xs.any (fun y => sameKey y r) = true
      · have hany : (x :: xs).any (fun y => sameKey y r) = true := by
          simp [List.any_cons, hxa]
        rw [upsertRow_pos _ _ hany, List.map_cons, if_neg hr]
        rw [List.filter_cons_of_neg (by simp [hrb])]
        have hgoal := ih hxs
        rw [upsertRow_pos _ _ hxa] at hgoal
        exact hgoal
      · have hxa' : xs.any (fun y => sameKey y r) = false := by
          cases hc : xs.any (fun y => sameKey y r)
          · rfl
          · exact absurd hc hxa
        have hany : (x :: xs).any (fun y => sameKey y r) = false := by
          simp [List.any_cons, hrb, hxa']
        rw [upsertRow_neg _ _ hany, List.cons_append]
        rw [List.filter_cons_of_neg (by simp [hrb])]
        have hgoal := ih hxs
        rw [upsertRow_neg _ _ hxa'] at hgoal
        exact hgoal

theorem any_congr_bool {α : Type} (l : List α) (p q : α → Bool)
    (h : ∀ x ∈ l, p x = q x) : l.any p = l.any q := by
  induction l with
  | nil => rfl
  | cons x xs ih =>
    simp only [List.any_cons]
    rw [h x (by simp), ih (fun y hy => h y (by simp [hy]))]

theorem keysUnique_append_one (r : Stock) :
    ∀ s : List Stock, keysUnique s = true →
      s.any (fun y => sameKey y r) = false →
      keysUnique (s ++ [r]) = true := by
  intro s
  induction s with
  | nil =>
    intro _ _
    simp [keysUnique]
  | cons x xs ih =>
    intro hu hs
    obtain ⟨hx, hxs⟩ := keysUnique_cons x xs hu
    have hxr : sameKey x r = false := by
      have := List.any_eq_false.mp hs
      simpa using this x (by simp)
    have hrx : sameKey r x = false := by rw [sameKey_symm]; exact hxr
    have hxs' : xs.any (fun y => sameKey y r) = false := by
      rw [List.any_eq_false]
      intro z hz
      have := List.any_eq_false.mp hs
      simpa using this z (by simp [hz])
    simp only [List.cons_append, keysUnique, Bool.and_eq_true, Bool.not_eq_true']
    refine ⟨?_, ih hxs hxs'⟩
    simp [List.any_append, hx, hrx]

theorem sameKey_upd_pair (r y z : Stock) :
    sameKey (if sameKey y r then r else y) (if sameKey z r then r else z)
      = sameKey y z := by
  by_cases hyr : sameKey y r = true
  · by_cases hzr : sameKey z r = true
    · rw [if_pos hyr, if_pos hzr, sameKey_refl]
      rw [← sameKey_congr_right z r hzr y]
      exact hyr.symm
    · rw [if_pos hyr, if_neg hzr]
      exact sameKey_congr_left y r hyr z
  · by_cases hzr : sameKey z r = true
    · rw [if_neg hyr, if_pos hzr]
      exact sameKey_congr_right z r hzr y
    · rw [if_neg hyr, if_neg hzr]

theorem keysUnique_map_upd (r : Stock) :
    ∀ s : List Stock, keysUnique s = true →
      keysUnique (s.map (fun y => if sameKey y r then r else y)) = true := by
  intro s
  induction s with
  | nil => intro _; rfl
  | cons x xs ih =>
    intro hu
    obtain ⟨hx, hxs⟩ := keysUnique_cons x xs hu
    simp only [List.map_cons, keysUnique, Bool.and_eq_true, Bool.not_eq_true']
    refine ⟨?_, ih hxs⟩
    rw [List.any_map]
    rw [any_congr_bool xs
      ((fun s => sameKey s (if sameKey x r then r else x)) ∘
        (fun y => if sameKey y r then r else y))
      (fun s => sameKey s x)
      (fun z _ => sameKey_upd_pair r z x)]
    exact hx

theorem keysUnique_upsertRow (r : Stock) (s : List Stock)
    (hu : keysUnique s = true) : keysUnique (upsertRow s r) = true := by
  cases ha : s.any (fun x => sameKey x r) with
  | true =>
    rw [upsertRow_pos s r ha]
    exact keysUnique_map_upd r s hu
  | false =>
    rw [upsertRow_neg s r ha]
    exact keysUnique_append_one r s hu ha


/-- Sample row used by witnesses. -/
def stockA : Stock :=
  ⟨"AAPL", "Apple", "BrokerA", "upgraded by", "Hold", "Buy", "$1.00", "$2.00", "2024-01-01T00:00:00Z"⟩

/-- Sample row: same key as `stockB2`, different non-key fields. -/
def stockB1 : Stock :=
  ⟨"MSFT", "Microsoft", "BrokerB", "reiterated by", "Buy", "Buy", "$3.00", "$4.00", "2024-02-02T00:00:00Z"⟩

/-- Sample row: same key as `stockB1`, different non-key fields. -/
def stockB2 : Stock :=
  ⟨"MSFT", "Microsoft Corp", "BrokerC", "downgraded by", "Buy", "Hold", "$5.00", "$6.00", "2024-02-02T00:00:00Z"⟩

/-- C1 counterexample: two records with the same `(ticker, time)` key
inside ONE batch do not leave a second-wins row — all batch rows are bound
to a single `INSERT … ON CONFLICT DO UPDATE` statement, which
PostgreSQL/CockroachDB abort when it would affect the same row twice, so
the statement errors and stores nothing. -/
theorem c1_counterexample :
    sameKey stockB1 stockB2 = true ∧
    upsertStmt [stockA] [stockB1, stockB2] = .error pgDupRowMsg :=
  ⟨by decide, rfl⟩

/-- C1 amended: re-ingesting the same `(ticker, time)` key across
successive statements (separate batches or syncs) overwrites rather than
duplicates — both singleton upserts succeed, afterwards exactly one stored
row carries that key and it equals the second-ingested record in every
field, and the key-uniqueness invariant is preserved; but the two records
in ONE batch make the multi-row statement itself fail with the
duplicate-row error instead of applying them in sequence. -/
theorem c1_upsert_second_wins_amended (store : List Stock) (r1 r2 : Stock)
    (hu : keysUnique store = true) (hk : sameKey r1 r2 = true) :
    upsertStmt store [r1] = .ok (upsertRow store r1) ∧
    upsertStmt (upsertRow store r1) [r2]
      = .ok (upsertRow (upsertRow store r1) r2) ∧
    (upsertRow (upsertRow store r1) r2).filter (fun x => sameKey x r2) = [r2] ∧
    keysUnique (upsertRow (upsertRow store r1) r2) = true ∧
    upsertStmt store [r1, r2] = .error pgDupRowMsg := by
  have h1 : keysUnique (upsertRow store r1) = true :=
    keysUnique_upsertRow r1 store hu
  have h21 : sameKey r2 r1 = true := by
    rw [sameKey_symm]
    exact hk
  refine ⟨?_, ?_, filter_upsertRow r2 _ h1, keysUnique_upsertRow r2 _ h1, ?_⟩
  · simp [upsertStmt, keysUnique, upsertBatch]
  · simp [upsertStmt, keysUnique, upsertBatch]
  · simp [upsertStmt, keysUnique, h21]

/-- Witness for `c1_upsert_second_wins_amended` on a concrete store and
records. -/
theorem c1_upsert_second_wins_amended_witness :
    upsertStmt [stockA] [stockB1] = .ok (upsertRow [stockA] stockB1) ∧
    upsertStmt (upsertRow [stockA] stockB1) [stockB2]
      = .ok (upsertRow (upsertRow [stockA] stockB1) stockB2) ∧
    (upsertRow (upsertRow [stockA] stockB1) stockB2).filter
      (fun x => sameKey x stockB2) = [stockB2] ∧
    keysUnique (upsertRow (upsertRow [stockA] stockB1) stockB2) = true ∧
    upsertStmt [stockA] [stockB1, stockB2] = .error pgDupRowMsg :=
  c1_upsert_second_wins_amended [stockA] stockB1 stockB2 (by decide) (by decide)

/-- Mirror of `isRetryableError`: the error description is matched against
the retryable substrings. -/
def isRetryableError (e : String) : Bool :=
  contains e "deadlock" ||
  contains e "timeout" ||
  contains e "connection" ||
  contains e "restart" ||
  contains e "try again" ||
  contains e "lock" ||
  contains e "concurrent" ||
  contains e "retry" ||
  contains e "conflict"

/-- The connection-class test of `processBatch`: substrings that trigger a
reconnect (`initDB`) before the next attempt. -/
def connClass (e : String) : Bool :=
  contains e "connection" ||
  contains e "broken" ||
  contains e "reset by peer" ||
  contains e "i/o timeout"

/-- Observable actions of the batch engine: the one liveness check of
`checkDBConnection`, a transaction attempt with its context timeout in
seconds, a reconnect (`initDB`) triggered by a connection-class error, and
a backoff sleep in milliseconds. -/
inductive Event where
  | checkConn
  | txAttempt (attempt timeoutSec : Nat)
  | reconnect
  | sleepMs (ms : Nat)
deriving DecidableEq

/-- Final error message of `processBatch` after the loop ends. -/
def batchFailMsg (lastErr : String) : String :=
  "error insertando stocks después de 5 intentos: " ++ lastErr

/-- Retry loop of `processBatch`: `txErr n` is the outcome of the
transaction attempt `n` (`none` = committed).  `fuel` counts the attempts
still allowed (the loop runs `attempt = 1..5`); the timeout of attempt `n`
is `10 * n` seconds, the backoff before attempt `n+1` is
`2^(n-1) * 500` milliseconds, taken only when the error is retryable and
`attempt < 5`; connection-class errors additionally trigger a reconnect
before the sleep. -/
def pbLoop (txErr : Nat → Option String) : Nat → Nat → Option String →
    Except String Unit × List Event
  | _, 0, lastErr => (.error (batchFailMsg (lastErr.getD "")), [])
  | attempt, fuel + 1, _ =>
    let ev := Event.txAttempt attempt (10 * attempt)
    match txErr attempt with
    | none => (.ok (), [ev])
    | some e =>
      if attempt < 5 && isRetryableError e then
        let rEvs : List Event := if connClass e then [Event.reconnect] else []
        let sleepEv : List Event := [Event.sleepMs (2 ^ (attempt - 1) * 500)]
        let rest := pbLoop txErr (attempt + 1) fuel (some e)
        (rest.1, ev :: (rEvs ++ sleepEv ++ rest.2))
      else (.error (batchFailMsg e), [ev])

/-- Mirror of `processBatch`: empty batch is a no-op success; otherwise one
`checkDBConnection` precedes the retry loop (`checkOk` is its outcome),
and the loop runs with `maxRetries = 5`. -/
def processBatch (checkOk : Bool) (txErr : Nat → Option String)
    (batch : List Stock) : Except String Unit × List Event :=
  if batch.isEmpty then (.ok (), [])
  else if !checkOk then
    (.error "error verificando conexión a la base de datos", [Event.checkConn])
  else
    let r := pbLoop txErr 1 5 none
    (r.1, Event.checkConn :: r.2)


/-- Recognizer for the liveness-check event. -/
def isCheck : Event → Bool
  | .checkConn => true
  | .txAttempt _ _ => false
  | .reconnect => false
  | .sleepMs _ => false

/-- Recognizer for a transaction-attempt event. -/
def isTx : Event → Bool
  | .checkConn => false
  | .txAttempt _ _ => true
  | .reconnect => false
  | .sleepMs _ => false

/-- Number of `checkConn` events in a trace. -/
def countCheck (evs : List Event) : Nat := evs.countP isCheck

/-- Number of transaction attempts in a trace. -/
def countTx (evs : List Event) : Nat := evs.countP isTx

theorem pbLoop_no_check (txErr : Nat → Option String) :
    ∀ fuel attempt lastErr, countCheck (pbLoop txErr attempt fuel lastErr).2 = 0 := by
  intro fuel
  induction fuel with
  | zero => intro _ _; rfl
  | succ f ih =>
    intro attempt lastErr
    cases h : txErr attempt with
    | none => simp [pbLoop, h, countCheck, isCheck]
    | some e =>
      by_cases hc : (attempt < 5 && isRetryableError e) = true
      · have ihr := ih (attempt + 1) (some e)
        cases hcc : connClass e <;>
          simp [pbLoop, h, hc, hcc, countCheck, isCheck, List.countP_cons,
            List.countP_append] <;>
          simpa [countCheck] using ihr
      · simp [pbLoop, h, hc, countCheck, isCheck]

theorem pbLoop_tx_le (txErr : Nat → Option String) :
    ∀ fuel attempt lastErr, countTx (pbLoop txErr attempt fuel lastErr).2 ≤ fuel := by
  intro fuel
  induction fuel with
  | zero => intro _ _; exact Nat.le_refl 0
  | succ f ih =>
    intro attempt lastErr
    cases h : txErr attempt with
    | none => simp [pbLoop, h, countTx, isTx]
    | some e =>
      by_cases hc : (attempt < 5 && isRetryableError e) = true
      · have ihr := ih (attempt + 1) (some e)
        rw [countTx] at ihr
        cases hcc : connClass e <;>
          simp [pbLoop, h, hc, hcc, countTx, isTx, List.countP_cons,
            List.countP_append] <;>
          omega
      · simp [pbLoop, h, hc, countTx, isTx]

/-- C3: with a non-empty batch the engine makes at most 5 transaction
attempts; when every attempt fails with a retryable (non connection-class)
error the attempts carry timeouts 10,20,30,40,50 seconds with backoff
sleeps 500,1000,2000,4000 ms between them and the run fails with the last
error; a non-retryable error on attempt 1 fails immediately with no sleep
and no further attempt. -/
theorem c3_retry_schedule (txErr : Nat → Option String) (batch : List Stock)
    (hb : batch ≠ []) :
    countTx (processBatch true txErr batch).2 ≤ 5 ∧
    (∀ e1 e2 e3 e4 e5,
      txErr 1 = some e1 → txErr 2 = some e2 → txErr 3 = some e3 →
      txErr 4 = some e4 → txErr 5 = some e5 →
      isRetryableError e1 = true → connClass e1 = false →
      isRetryableError e2 = true → connClass e2 = false →
      isRetryableError e3 = true → connClass e3 = false →
      isRetryableError e4 = true → connClass e4 = false →
      processBatch true txErr batch =
        (.error (batchFailMsg e5),
         [.checkConn, .txAttempt 1 10, .sleepMs 500, .txAttempt 2 20,
          .sleepMs 1000, .txAttempt 3 30, .sleepMs 2000, .txAttempt 4 40,
          .sleepMs 4000, .txAttempt 5 50])) ∧
    (∀ e, txErr 1 = some e → isRetryableError e = false →
      processBatch true txErr batch =
        (.error (batchFailMsg e), [.checkConn, .txAttempt 1 10])) := by
  have hbe : batch.isEmpty = false := by
    cases batch with
    | nil => exact absurd rfl hb
    | cons a l => rfl
  refine ⟨?_, ?_, ?_⟩
  · have h5 := pbLoop_tx_le txErr 5 1 none
    rw [countTx] at h5
    simp only [processBatch, hbe, Bool.false_eq_true, if_false, Bool.not_true,
      countTx, List.countP_cons, isTx]
    simpa [countTx] using h5
  · intro e1 e2 e3 e4 e5 he1 he2 he3 he4 he5 hr1 hc1 hr2 hc2 hr3 hc3 hr4 hc4
    simp [processBatch, hbe, pbLoop, he1, he2, he3, he4, he5,
      hr1, hc1, hr2, hc2, hr3, hc3, hr4, hc4]
  · intro e he hr
    simp [processBatch, hbe, pbLoop, he, hr]

/-- Attempt oracle where every transaction fails with a deadlock. -/
def c3RetryErr : Nat → Option String := fun _ => some "deadlock detected"

/-- Attempt oracle where every transaction fails with a syntax error. -/
def c3FatalErr : Nat → Option String := fun _ => some "syntax error"

/-- Witness for `c3_retry_schedule`: the deadlock oracle exhausts all 5
attempts with the full timeout/backoff schedule; the syntax-error oracle
fails on attempt 1 with no sleep. -/
theorem c3_retry_schedule_witness :
    processBatch true c3RetryErr [stockA] =
      (.error (batchFailMsg "deadlock detected"),
       [.checkConn, .txAttempt 1 10, .sleepMs 500, .txAttempt 2 20,
        .sleepMs 1000, .txAttempt 3 30, .sleepMs 2000, .txAttempt 4 40,
        .sleepMs 4000, .txAttempt 5 50]) ∧
    processBatch true c3FatalErr [stockA] =
      (.error (batchFailMsg "syntax error"), [.checkConn, .txAttempt 1 10]) :=
  ⟨(c3_retry_schedule c3RetryErr [stockA] (by decide)).2.1
      "deadlock detected" "deadlock detected" "deadlock detected"
      "deadlock detected" "deadlock detected" rfl rfl rfl rfl rfl
      (by decide) (by decide) (by decide) (by decide) (by decide) (by decide)
      (by decide) (by decide),
   (c3_retry_schedule c3FatalErr [stockA] (by decide)).2.2
      "syntax error" rfl (by decide)⟩

/-- Attempt oracle for the C6 counterexample: attempt 1 deadlocks, attempt
2 commits. -/
def c6TxErr : Nat → Option String :=
  fun n => if n == 1 then some "deadlock detected" else none

/-- C6 counterexample: a run with two transaction attempts contains only
one liveness check (`checkDBConnection` runs once, before the loop), so it
is false that every attempt is preceded by its own liveness
verification. -/
theorem c6_counterexample :
    countTx (processBatch true c6TxErr [stockA]).2 = 2 ∧
    countCheck (processBatch true c6TxErr [stockA]).2 = 1 :=
  ⟨rfl, rfl⟩

/-- C6 amended: for every non-empty batch the engine verifies connection
liveness exactly once, before the first transaction attempt; the retry
loop itself performs no further liveness checks. -/
theorem c6_single_liveness_check (txErr : Nat → Option String)
    (batch : List Stock) (hb : batch ≠ []) :
    (processBatch true txErr batch).2.head? = some Event.checkConn ∧
    countCheck (processBatch true txErr batch).2 = 1 := by
  have hbe : batch.isEmpty = false := by
    cases batch with
    | nil => exact absurd rfl hb
    | cons a l => rfl
  have h0 := pbLoop_no_check txErr 5 1 none
  rw [countCheck] at h0
  constructor
  · simp [processBatch, hbe]
  · simp only [processBatch, hbe, Bool.false_eq_true, if_false, Bool.not_true,
      countCheck, List.countP_cons, isCheck]
    simp [h0]

/-- Witness for `c6_single_liveness_check` on a concrete batch and
oracle. -/
theorem c6_single_liveness_check_witness :
    (processBatch true c6TxErr [stockA]).2.head? = some Event.checkConn ∧
    countCheck (processBatch true c6TxErr [stockA]).2 = 1 :=
  c6_single_liveness_check c6TxErr [stockA] (by decide)

/-- Retry loop of `retryWithBackoff`: `calls i` is the outcome of the
`i`-th invocation (0-based) of the wrapped closure; the loop makes at most
`attempts` calls, breaking on success or on the last attempt, and sleeps
`2^i` seconds after failed attempt `i` otherwise.  Returns the result, the
number of calls made, and the list of backoff sleeps in seconds.  (The Go
closure communicates its value through a captured variable; here the value
travels in the `Except`.) -/
def rwb {α : Type} (calls : Nat → Except String α) (attempts : Nat)
    (dflt : α) : Nat → Nat → Except String α × Nat × List Nat
  | _, 0 => (.ok dflt, 0, [])
  | i, r + 1 =>
    match calls i with
    | .ok a => (.ok a, 1, [])
    | .error e =>
      if i == attempts - 1 then (.error e, 1, [])
      else
        let rest := rwb calls attempts dflt (i + 1) r
        (rest.1, rest.2.1 + 1, 2 ^ i :: rest.2.2)

/-- Mirror of `retryWithBackoff` (the Go function takes `attempts` and the
closure; the zero-value result stands for the untouched captured
variable). -/
def retryWithBackoff {α : Type} (attempts : Nat) (dflt : α)
    (calls : Nat → Except String α) : Except String α × Nat × List Nat :=
  rwb calls attempts dflt 0 attempts

theorem rwb_calls_le {α : Type} (calls : Nat → Except String α)
    (attempts : Nat) (dflt : α) :
    ∀ r i, (rwb calls attempts dflt i r).2.1 ≤ r := by
  intro r
  induction r with
  | zero => intro _; exact Nat.le_refl 0
  | succ n ih =>
    intro i
    cases h : calls i with
    | ok a => simp [rwb, h]
    | error e =>
      by_cases hi : (i == attempts - 1) = true
      · simp [rwb, h, hi]
      · have := ih (i + 1)
        simp [rwb, h, hi]
        omega

/-- C8: the single-page network call is made at most 3 times; two failures
followed by a success return the success after backoff sleeps 1s and 2s;
three failures return the last error after the same sleeps. -/
theorem c8_retry_with_backoff {α : Type} (dflt : α)
    (calls : Nat → Except String α) :
    (retryWithBackoff 3 dflt calls).2.1 ≤ 3 ∧
    (∀ e0 e1 a, calls 0 = .error e0 → calls 1 = .error e1 → calls 2 = .ok a →
      retryWithBackoff 3 dflt calls = (.ok a, 3, [1, 2])) ∧
    (∀ e0 e1 e2, calls 0 = .error e0 → calls 1 = .error e1 →
      calls 2 = .error e2 →
      retryWithBackoff 3 dflt calls = (.error e2, 3, [1, 2])) := by
  refine ⟨rwb_calls_le calls 3 dflt 3 0, ?_, ?_⟩
  · intro e0 e1 a h0 h1 h2
    simp [retryWithBackoff, rwb, h0, h1, h2]
  · intro e0 e1 e2 h0 h1 h2
    simp [retryWithBackoff, rwb, h0, h1, h2]

/-- Call outcomes for the C8 witness: two failures then a success. -/
def c8Calls : Nat → Except String Unit :=
  fun i => if i ≤ 1 then .error "transient" else .ok ()

/-- Call outcomes that always fail. -/
def c8CallsBad : Nat → Except String Unit :=
  fun _ => .error "down"

/-- Witness for `c8_retry_with_backoff` on concrete call outcomes. -/
theorem c8_retry_with_backoff_witness :
    (retryWithBackoff 3 () c8Calls).2.1 ≤ 3 ∧
    retryWithBackoff 3 () c8Calls = (.ok (), 3, [1, 2]) ∧
    retryWithBackoff 3 () c8CallsBad = (.error "down", 3, [1, 2]) :=
  ⟨(c8_retry_with_backoff () c8Calls).1,
   (c8_retry_with_backoff () c8Calls).2.1 "transient" "transient" () rfl rfl rfl,
   (c8_retry_with_backoff () c8CallsBad).2.2 "down" "down" "down" rfl rfl rfl⟩

/-- Decode stage of one page response body. -/
inductive BodyResult where
  | decodeErr (msg : String)
  | page (items : List Stock) (next : String)

/-- Transport stage of one page call: either the client call errors, or a
response arrives with a status code and a body. -/
inductive HttpResult where
  | transportErr (msg : String)
  | response (status : Nat) (body : BodyResult)

/-- The error message of the missing-credential check inside the closure of
`fetchStocks`. -/
def missingKeyMsg : String :=
  "DB_API_KEY environment variable is missing or empty"

/-- One execution of the closure passed to `retryWithBackoff` by
`fetchStocks`: the credential is read from the environment on every call
and an empty value is an error like any other; then transport, status and
decode are checked in order. -/
def pageCall (apiKey : String) (r : HttpResult) :
    Except String (List Stock × String) :=
  if apiKey == "" then .error missingKeyMsg
  else
    match r with
    | .transportErr m => .error ("error haciendo request: " ++ m)
    | .response status body =>
      if status == 200 then
        match body with
        | .decodeErr m => .error ("error unmarshaling JSON: " ++ m)
        | .page items next => .ok (items, next)
      else .error ("error de API: status code " ++ toString status)

/-- Mirror of `fetchStocks`: the closure is retried by `retryWithBackoff`
with 3 attempts; `net i` is what the network does on call `i`. -/
def fetchStocks (apiKey : String) (net : Nat → HttpResult) :
    Except String (List Stock × String) × Nat × List Nat :=
  retryWithBackoff 3 ([], "") (fun i => pageCall apiKey (net i))

/-- C5 counterexample: with the credential absent (and the network
perfectly healthy) the fetcher still consumes all 3 attempts and sleeps
1s + 2s before returning the missing-credential error — it is false that a
missing credential is non-retryable and aborts immediately without
consuming attempts or sleeping. -/
theorem c5_counterexample :
    fetchStocks "" (fun _ => .response 200 (.page [] "")) =
      (.error missingKeyMsg, 3, [1, 2]) :=
  rfl

/-- C5 amended: the missing-credential error receives no special
classification — like transport errors, non-success statuses and decode
failures it is retried within the 3-attempt budget; with the credential
absent every attempt fails and the fetcher returns the missing-credential
error after 3 attempts and sleeps 1s + 2s, while with a credential present
any first-call failure is retried and a healthy second call succeeds after
one 1s sleep. -/
theorem c5_missing_credential_retried (net : Nat → HttpResult) :
    (∀ apiKeyAbsent : String, apiKeyAbsent = "" →
      fetchStocks apiKeyAbsent net = (.error missingKeyMsg, 3, [1, 2])) ∧
    (∀ apiKey e items next, apiKey ≠ "" →
      pageCall apiKey (net 0) = .error e →
      net 1 = .response 200 (.page items next) →
      fetchStocks apiKey net = (.ok (items, next), 2, [1])) := by
  constructor
  · intro k hk
    subst hk
    have hcall : ∀ i, pageCall "" (net i) = .error missingKeyMsg := by
      intro i
      simp [pageCall]
    simp [fetchStocks, retryWithBackoff, rwb, hcall]
  · intro apiKey e items next hk h0 h1
    have hk' : (apiKey == "") = false := by
      cases hc : apiKey == ""
      · rfl
      · exact absurd (by simpa using hc) hk
    have hcall1 : pageCall apiKey (net 1) = .ok (items, next) := by
      rw [h1]
      simp [pageCall, hk']
    simp [fetchStocks, retryWithBackoff, rwb, h0, hcall1]

/-- Witness for `c5_missing_credential_retried` on concrete oracles. -/
theorem c5_missing_credential_retried_witness :
    fetchStocks "" (fun _ => .transportErr "net down") =
      (.error missingKeyMsg, 3, [1, 2]) ∧
    fetchStocks "Bearer k"
        (fun i => if i == 0 then .transportErr "net down"
                  else .response 200 (.page [stockA] "a")) =
      (.ok ([stockA], "a"), 2, [1]) :=
  ⟨(c5_missing_credential_retried (fun _ => .transportErr "net down")).1 "" rfl,
   (c5_missing_credential_retried
      (fun i => if i == 0 then .transportErr "net down"
                else .response 200 (.page [stockA] "a"))).2
     "Bearer k" ("error haciendo request: " ++ "net down") [stockA] "a"
     (by decide) rfl rfl⟩

/-- One result of a `fetchStocks` call as seen by the fetch-all loop:
either the page's records plus the continuation cursor, or the error left
after the page's retries were exhausted. -/
abbrev PageResp := Except String (List Stock × String)

/-- Loop of `fetchAllStocks`: responses are consumed in order; an error
aborts with that error and no records; an empty cursor returns the
accumulated records; a non-empty cursor continues.  `none` models the loop
still running when the supplied response sequence is exhausted. -/
def fetchAllGo : List PageResp → List Stock → Option (Except String (List Stock))
  | [], _ => none
  | .error e :: _, _ => some (.error e)
  | .ok (items, next) :: rest, acc =>
    if next == "" then some (.ok (acc ++ items))
    else fetchAllGo rest (acc ++ items)

/-- Mirror of `fetchAllStocks`: starts from the first page with an empty
accumulator. -/
def fetchAllStocks (rs : List PageResp) : Option (Except String (List Stock)) :=
  fetchAllGo rs []

/-- Records of one page response (empty for an error). -/
def pageItems : PageResp → List Stock
  | .ok (items, _) => items
  | .error _ => []

/-- Concatenation of the records of a response sequence, in order. -/
def itemsJoin : List PageResp → List Stock
  | [] => []
  | r :: rs => pageItems r ++ itemsJoin rs

/-- A response that lets the loop continue: a page with a non-empty
cursor. -/
def pageOkCursor : PageResp → Bool
  | .ok (_, c) => !(c == "")
  | .error _ => false

theorem fetchAllGo_ok (last : List Stock) :
    ∀ (ps : List PageResp) (acc : List Stock),
      (∀ r ∈ ps, pageOkCursor r = true) →
      fetchAllGo (ps ++ [.ok (last, "")]) acc =
        some (.ok (acc ++ (itemsJoin ps ++ last))) := by
  intro ps
  induction ps with
  | nil =>
    intro acc _
    simp [fetchAllGo, itemsJoin]
  | cons r rs ih =>
    intro acc h
    have hr := h r (by simp)
    cases r with
    | error e => simp [pageOkCursor] at hr
    | ok p =>
      obtain ⟨items, next⟩ := p
      have hnext : (next == "") = false := by
        simpa [pageOkCursor] using hr
      simp only [List.cons_append, fetchAllGo, hnext, Bool.false_eq_true,
        if_false, List.append_eq]
      rw [ih (acc ++ items) (fun x hx => h x (by simp [hx]))]
      simp [itemsJoin, pageItems]

theorem fetchAllGo_error (e : String) (rest : List PageResp) :
    ∀ (ps : List PageResp) (acc : List Stock),
      (∀ r ∈ ps, pageOkCursor r = true) →
      fetchAllGo (ps ++ .error e :: rest) acc = some (.error e) := by
  intro ps
  induction ps with
  | nil =>
    intro acc _
    simp [fetchAllGo]
  | cons r rs ih =>
    intro acc h
    have hr := h r (by simp)
    cases r with
    | error e2 => simp [pageOkCursor] at hr
    | ok p =>
      obtain ⟨items, next⟩ := p
      have hnext : (next == "") = false := by
        simpa [pageOkCursor] using hr
      simp only [List.cons_append, fetchAllGo, hnext, Bool.false_eq_true,
        if_false, List.append_eq]
      exact ih (acc ++ items) (fun x hx => h x (by simp [hx]))

theorem fetchAllGo_no_end :
    ∀ (ps : List PageResp) (acc : List Stock),
      (∀ r ∈ ps, pageOkCursor r = true) →
      fetchAllGo ps acc = none := by
  intro ps
  induction ps with
  | nil => intro acc _; rfl
  | cons r rs ih =>
    intro acc h
    have hr := h r (by simp)
    cases r with
    | error e => simp [pageOkCursor] at hr
    | ok p =>
      obtain ⟨items, next⟩ := p
      have hnext : (next == "") = false := by
        simpa [pageOkCursor] using hr
      simp only [fetchAllGo, hnext, Bool.false_eq_true, if_false]
      exact ih (acc ++ items) (fun x hx => h x (by simp [hx]))

/-- C7: fetch-all returns the concatenation of the pages' record lists in
order and terminates exactly at the first empty continuation cursor; a
failed page (after its retries) aborts the whole fetch-all with that error
and no partial record set; while every cursor is non-empty and no page has
ended the loop is still running. -/
theorem c7_fetch_all (ps : List PageResp)
    (h : ∀ r ∈ ps, pageOkCursor r = true) :
    (∀ last, fetchAllStocks (ps ++ [.ok (last, "")]) =
      some (.ok (itemsJoin ps ++ last))) ∧
    (∀ e rest, fetchAllStocks (ps ++ .error e :: rest) = some (.error e)) ∧
    fetchAllStocks ps = none := by
  refine ⟨?_, ?_, fetchAllGo_no_end ps [] h⟩
  · intro last
    rw [fetchAllStocks, fetchAllGo_ok last ps [] h]
    simp
  · intro e rest
    exact fetchAllGo_error e rest ps [] h

/-- Sample pages for the C7 witness: P1 with cursor "a", P2 with cursor
"b". -/
def c7Pages : List PageResp := [.ok ([stockA], "a"), .ok ([stockB1], "b")]

/-- Witness for `c7_fetch_all`: P1 (cursor "a"), P2 (cursor "b"), P3
(cursor "") concatenate in order; an error page aborts the run. -/
theorem c7_fetch_all_witness :
    fetchAllStocks (c7Pages ++ [.ok ([stockB2], "")]) =
      some (.ok (itemsJoin c7Pages ++ [stockB2])) ∧
    fetchAllStocks (c7Pages ++ .error "page down" :: []) =
      some (.error "page down") ∧
    fetchAllStocks c7Pages = none :=
  ⟨(c7_fetch_all c7Pages (by decide)).1 [stockB2],
   (c7_fetch_all c7Pages (by decide)).2.1 "page down" [],
   (c7_fetch_all c7Pages (by decide)).2.2⟩

/-- Observable database state: the `stocks` table (`none` = absent) and the
secondary index on ticker. -/
structure DBState where
  stocksTable : Option (List Stock)
  hasIndex : Bool
deriving DecidableEq

/-- Backoff of a failed `initDB` connection attempt, in whole seconds.  Go
computes `time.Duration(math.Pow(2, attempt-1) + (UnixNano()%1000)/1000) *
time.Second`: the float `2^(attempt-1) + jitter/1000` with `jitter ∈
[0,1000)` is truncated to an integer number of seconds by the `Duration`
conversion, which the integer division below reproduces exactly. -/
def backoffSec (attempt jitter : Nat) : Nat :=
  (1000 * 2 ^ (attempt - 1) + jitter % 1000) / 1000

/-- Result of the connection loop of `initDB`. -/
structure ConnOut where
  err : Option String
  lastErr : Option String
  attempts : Nat
  sleeps : List Nat
deriving DecidableEq

/-- Connection loop of `initDB`: up to `fuel` further attempts starting at
`attempt` (called with `attempt = 1`, `fuel = 5`); a failed attempt sleeps
`backoffSec` before the next one, except after the final attempt. -/
def initConnLoop (connErr : Nat → Option String) (jitter : Nat → Nat) :
    Nat → Nat → ConnOut
  | _, 0 => ⟨none, none, 0, []⟩
  | attempt, fuel + 1 =>
    match connErr attempt with
    | none => ⟨none, none, 1, []⟩
    | some e =>
      if fuel == 0 then ⟨some e, some e, 1, []⟩
      else
        let rest := initConnLoop connErr jitter (attempt + 1) fuel
        ⟨rest.err, some (rest.lastErr.getD e), rest.attempts + 1,
         backoffSec attempt (jitter attempt) :: rest.sleeps⟩

/-- Error message of `initDB` when all connection attempts fail. -/
def connectFailMsg (lastErr : String) : String :=
  "error conectando a la base de datos después de 5 intentos: " ++ lastErr

/-- Error message of `initDB` when the post-connect ping fails. -/
def pingFailMsg (e : String) : String :=
  "error verificando conexión a la base de datos: " ++ e

/-- Result of `initDB`. -/
structure InitResult where
  res : Except String Unit
  attempts : Nat
  sleeps : List Nat
  state : DBState

/-- Mirror of `initDB`: up to 5 connection attempts (`connErr n` is the
outcome of attempt `n`, `jitter n` its jitter sample); on connect success a
single ping (`pingErr`) is issued and a ping failure returns an error with
no further attempt; on full success the schema statements run:
`DROP TABLE IF EXISTS stocks` then `CREATE TABLE IF NOT EXISTS stocks`
then `CREATE INDEX IF NOT EXISTS idx_stocks_ticker`, leaving an empty
table. -/
def initDB (connErr : Nat → Option String) (jitter : Nat → Nat)
    (pingErr : Option String) (st : DBState) : InitResult :=
  let c := initConnLoop connErr jitter 1 5
  match c.err with
  | some _ =>
    ⟨.error (connectFailMsg (c.lastErr.getD "")), c.attempts, c.sleeps, st⟩
  | none =>
    match pingErr with
    | some e => ⟨.error (pingFailMsg e), c.attempts, c.sleeps, st⟩
    | none => ⟨.ok (), c.attempts, c.sleeps, ⟨some [], true⟩⟩

/-- Mirror of `checkDBConnection`: a missing handle or a failed 3s ping
delegates to `initDB`; a healthy ping only logs pool stats. -/
def checkDBConnection (handleExists pingOk : Bool)
    (connErr : Nat → Option String) (jitter : Nat → Nat)
    (pingErr : Option String) (st : DBState) : Except String Unit × DBState :=
  if !handleExists then
    let r := initDB connErr jitter pingErr st
    (r.res, r.state)
  else if !pingOk then
    let r := initDB connErr jitter pingErr st
    (r.res, r.state)
  else (.ok (), st)

theorem backoffSec_eq (a j : Nat) : backoffSec (a + 1) j = 2 ^ a := by
  unfold backoffSec
  have h : j % 1000 < 1000 := Nat.mod_lt j (by norm_num)
  simp only [Nat.add_sub_cancel]
  omega

theorem initConnLoop_attempts_le (connErr : Nat → Option String)
    (jitter : Nat → Nat) :
    ∀ fuel attempt, (initConnLoop connErr jitter attempt fuel).attempts ≤ fuel := by
  intro fuel
  induction fuel with
  | zero => intro _; exact Nat.le_refl 0
  | succ f ih =>
    intro attempt
    cases h : connErr attempt with
    | none => simp [initConnLoop, h]
    | some e =>
      by_cases hf : (f == 0) = true
      · simp [initConnLoop, h, hf]
      · have := ih (attempt + 1)
        simp [initConnLoop, h, hf]
        omega

/-- C9: `initDB` makes at most 5 connection attempts; the sleep after
failed attempt `a` is exactly `2^(a-1)` seconds for every jitter sample
(the jitter term is truncated away by the integer `Duration` conversion);
if all 5 attempts fail the result is an error carrying the last underlying
error, after sleeps 1,2,4,8 seconds; if the first connect succeeds but the
ping fails, the result is the ping error after exactly 1 attempt and no
sleep — no reconnection is retried. -/
theorem c9_init_retry (connErr : Nat → Option String) (jitter : Nat → Nat)
    (pingErr : Option String) (st : DBState) :
    (initDB connErr jitter pingErr st).attempts ≤ 5 ∧
    (∀ a j, backoffSec (a + 1) j = 2 ^ a) ∧
    (∀ e1 e2 e3 e4 e5,
      connErr 1 = some e1 → connErr 2 = some e2 → connErr 3 = some e3 →
      connErr 4 = some e4 → connErr 5 = some e5 →
      initDB connErr jitter pingErr st =
        ⟨.error (connectFailMsg e5), 5, [1, 2, 4, 8], st⟩) ∧
    (∀ e, connErr 1 = none → pingErr = some e →
      initDB connErr jitter pingErr st = ⟨.error (pingFailMsg e), 1, [], st⟩) := by
  refine ⟨?_, backoffSec_eq, ?_, ?_⟩
  · have h := initConnLoop_attempts_le connErr jitter 5 1
    unfold initDB
    cases hc : (initConnLoop connErr jitter 1 5).err with
    | some e => simpa [hc] using h
    | none =>
      cases pingErr with
      | some e => simpa [hc] using h
      | none => simpa [hc] using h
  · intro e1 e2 e3 e4 e5 h1 h2 h3 h4 h5
    have hb1 : backoffSec 1 (jitter 1) = 1 := backoffSec_eq 0 (jitter 1)
    have hb2 : backoffSec 2 (jitter 2) = 2 := backoffSec_eq 1 (jitter 2)
    have hb3 : backoffSec 3 (jitter 3) = 4 := backoffSec_eq 2 (jitter 3)
    have hb4 : backoffSec 4 (jitter 4) = 8 := backoffSec_eq 3 (jitter 4)
    simp [initDB, initConnLoop, h1, h2, h3, h4, h5, hb1, hb2, hb3, hb4,
      connectFailMsg]
  · intro e h1 hp
    simp [initDB, initConnLoop, h1, hp]

/-- Connection oracle that always fails. -/
def connAlwaysDown : Nat → Option String := fun _ => some "refused"

/-- Connection oracle that always succeeds. -/
def connUp : Nat → Option String := fun _ => none

/-- Witness for `c9_init_retry` on concrete oracles. -/
theorem c9_init_retry_witness :
    (initDB connAlwaysDown (fun _ => 123) none ⟨none, false⟩).attempts ≤ 5 ∧
    backoffSec 3 77 = 4 ∧
    initDB connAlwaysDown (fun _ => 123) none ⟨none, false⟩ =
      ⟨.error (connectFailMsg "refused"), 5, [1, 2, 4, 8], ⟨none, false⟩⟩ ∧
    initDB connUp (fun _ => 123) (some "dead") ⟨none, false⟩ =
      ⟨.error (pingFailMsg "dead"), 1, [], ⟨none, false⟩⟩ :=
  ⟨(c9_init_retry connAlwaysDown (fun _ => 123) none ⟨none, false⟩).1,
   (c9_init_retry connAlwaysDown (fun _ => 123) none ⟨none, false⟩).2.1 2 77,
   (c9_init_retry connAlwaysDown (fun _ => 123) none ⟨none, false⟩).2.2.1
     "refused" "refused" "refused" "refused" "refused" rfl rfl rfl rfl rfl,
   (c9_init_retry connUp (fun _ => 123) (some "dead") ⟨none, false⟩).2.2.2
     "dead" rfl rfl⟩

/-- C4: every successful `initDB` run — at startup or re-run mid-sync by
`checkDBConnection` (nil handle or failed ping) or by `processBatch` after
a connection-class error — executes `DROP TABLE IF EXISTS stocks` before
`CREATE TABLE IF NOT EXISTS stocks`, so it leaves the `stocks` table empty
regardless of the rows it held before: every previously committed row is
lost. -/
theorem c4_init_drops_table (connErr : Nat → Option String)
    (jitter : Nat → Nat) (pingErr : Option String) (st : DBState) :
    ((initDB connErr jitter pingErr st).res = .ok () →
      (initDB connErr jitter pingErr st).state.stocksTable = some []) ∧
    (∀ handleExists pingOk, (handleExists = false ∨ pingOk = false) →
      (checkDBConnection handleExists pingOk connErr jitter pingErr st).1 = .ok () →
      (checkDBConnection handleExists pingOk connErr jitter pingErr st).2.stocksTable
        = some []) := by
  have hmain : (initDB connErr jitter pingErr st).res = .ok () →
      (initDB connErr jitter pingErr st).state.stocksTable = some [] := by
    cases hc : (initConnLoop connErr jitter 1 5).err with
    | some e =>
      intro h
      simp [initDB, hc] at h
    | none =>
      cases hp : pingErr with
      | some e =>
        intro h
        simp [initDB, hc, hp] at h
      | none =>
        intro _
        simp [initDB, hc, hp]
  refine ⟨hmain, ?_⟩
  intro handleExists pingOk hor
  cases handleExists with
  | false =>
    simp only [checkDBConnection, Bool.not_false, if_true]
    exact hmain
  | true =>
    cases pingOk with
    | false =>
      simp only [checkDBConnection, Bool.not_true, Bool.false_eq_true,
        if_false, Bool.not_false, if_true]
      exact hmain
    | true =>
      rcases hor with h | h
      · exact absurd h (by simp)
      · exact absurd h (by simp)

/-- Witness for `c4_init_drops_table`: a successful startup `initDB` and a
successful reconnect from a failed ping both leave the table empty even
when it held a row before. -/
theorem c4_init_drops_table_witness :
    ((initDB connUp (fun _ => 0) none ⟨some [stockA], true⟩).res = .ok () →
      (initDB connUp (fun _ => 0) none ⟨some [stockA], true⟩).state.stocksTable
        = some []) ∧
    ((initDB connUp (fun _ => 0) none ⟨some [stockA], true⟩).res = .ok () ∧
      (initDB connUp (fun _ => 0) none ⟨some [stockA], true⟩).state.stocksTable
        = some []) ∧
    ((checkDBConnection true false connUp (fun _ => 0) none
        ⟨some [stockA], true⟩).2.stocksTable = some []) :=
  ⟨(c4_init_drops_table connUp (fun _ => 0) none ⟨some [stockA], true⟩).1,
   ⟨rfl, (c4_init_drops_table connUp (fun _ => 0) none ⟨some [stockA], true⟩).1 rfl⟩,
   (c4_init_drops_table connUp (fun _ => 0) none ⟨some [stockA], true⟩).2
     true false (Or.inr rfl) rfl⟩

/-- Fuel-indexed batch partition: the batch loop of `saveStocks` takes
`stocks[i:i+25]` per step; fuel is the list length, which bounds the
number of steps. -/
def chunksGo : Nat → List Stock → List (List Stock)
  | 0, _ => []
  | _, [] => []
  | f + 1, x :: xs => (x :: xs.take 24) :: chunksGo f (xs.drop 24)

/-- The batch partition of `saveStocks` with `batchSize = 25`. -/
def chunks25 (l : List Stock) : List (List Stock) := chunksGo l.length l

theorem chunksGo_ne_nil :
    ∀ (fuel : Nat) (l : List Stock), ∀ b ∈ chunksGo fuel l, b ≠ [] := by
  intro fuel
  induction fuel with
  | zero => intro l b hb; simp [chunksGo] at hb
  | succ f ih =>
    intro l b hb
    cases l with
    | nil => simp [chunksGo] at hb
    | cons x xs =>
      simp only [chunksGo, List.mem_cons] at hb
      rcases hb with h | h
      · subst h; simp
      · exact ih (xs.drop 24) b h

theorem chunks25_ne_nil (l : List Stock) : ∀ b ∈ chunks25 l, b ≠ [] :=
  chunksGo_ne_nil l.length l

/-- Store effect of a batch whose transaction committed: the result of the
upsert statement.  (When the statement itself errors — duplicate keys
inside the batch — the transaction cannot have committed, so no realizable
success reaches that branch; the store is then left unchanged.) -/
def commitStmt (store batch : List Stock) : List Stock :=
  match upsertStmt store batch with
  | .ok s => s
  | .error _ => store

/-- State threaded by the batch loop of `saveStocks`: the store, the two
counters, and the 0-based indices of the batches after which the Resource
Janitor (`cleanupResources` + `checkDBConnection`) ran. -/
structure SyncState where
  store : List Stock
  successCount : Nat
  failedCount : Nat
  janitorAfter : List Nat
deriving DecidableEq

/-- Batch loop of `saveStocks`.  `fails idx` is whether `processBatch`
failed on batch `idx` (0-based, `idx = i / batchSize`).  `dropsBefore idx`
is whether a successful `initDB` re-run happened during batch `idx`'s
processing before its commit — from `processBatch`'s initial
`checkDBConnection` reconnecting on a failed ping, or from the
connection-class retry reconnect — and every successful `initDB` drops and
recreates the `stocks` table, emptying the store.  `dropsBetween idx` is
whether the between-batch `checkDBConnection` of the janitor block (which
runs only when `idx % 5 == 0` and more batches remain) reconnected the
same way after batch `idx`'s commit.  A failed batch adds its size to the
failure counter; a successful one commits the statement and adds its size
to the success counter. -/
def saveLoop (fails dropsBefore dropsBetween : Nat → Bool) :
    List (List Stock) → Nat → SyncState → SyncState
  | [], _, st => st
  | b :: bs, idx, st =>
    let s1 := if dropsBefore idx then [] else st.store
    let st1 := if fails idx then
        { st with store := s1, failedCount := st.failedCount + b.length }
      else
        { st with store := commitStmt s1 b,
                  successCount := st.successCount + b.length }
    let st2 := if bs.isEmpty then st1
      else if idx % 5 == 0 then
        { st1 with janitorAfter := st1.janitorAfter ++ [idx],
                   store := if dropsBetween idx then [] else st1.store }
      else st1
    saveLoop fails dropsBefore dropsBetween bs (idx + 1) st2

/-- Mirror of `saveStocks`: empty input is a no-op success; the initial
`checkDBConnection` outcome is `checkOk`; then the batch loop runs and the
sync errors iff the failure counter is positive. -/
def saveStocks (checkOk : Bool) (fails dropsBefore dropsBetween : Nat → Bool)
    (store0 stocks : List Stock) : Except String Unit × SyncState :=
  let st0 : SyncState := ⟨store0, 0, 0, []⟩
  if stocks.isEmpty then (.ok (), st0)
  else if !checkOk then (.error "error verificando conexión inicial", st0)
  else
    let st := saveLoop fails dropsBefore dropsBetween (chunks25 stocks) 0 st0
    if st.failedCount > 0 then
      (.error ("hubo errores al guardar " ++ toString st.failedCount ++ " stocks"), st)
    else (.ok (), st)

/-- Total size of the batches that succeed, indexed from `i`. -/
def sumSucc (fails : Nat → Bool) : List (List Stock) → Nat → Nat
  | [], _ => 0
  | b :: bs, i => (if fails i then 0 else b.length) + sumSucc fails bs (i + 1)

/-- Total size of the batches that fail, indexed from `i`. -/
def sumFail (fails : Nat → Bool) : List (List Stock) → Nat → Nat
  | [], _ => 0
  | b :: bs, i => (if fails i then b.length else 0) + sumFail fails bs (i + 1)

/-- Store after the succeeded batches' statements applied in order with no
mid-sync table drop. -/
def applyBatches (fails : Nat → Bool) :
    List (List Stock) → Nat → List Stock → List Stock
  | [], _, store => store
  | b :: bs, i, store =>
    applyBatches fails bs (i + 1) (if fails i then store else commitStmt store b)

/-- Expected janitor schedule: with `n` batches remaining and the current
batch at index `idx`, the janitor runs after `idx` iff `idx % 5 = 0` and
the batch is not the last one. -/
def janSpec : Nat → Nat → List Nat
  | _, 0 => []
  | idx, n + 1 =>
    (if n == 0 then [] else if idx % 5 == 0 then [idx] else []) ++
      janSpec (idx + 1) n

theorem saveLoop_success (fails dropsBefore dropsBetween : Nat → Bool) :
    ∀ (bs : List (List Stock)) (idx : Nat) (st : SyncState),
      (saveLoop fails dropsBefore dropsBetween bs idx st).successCount
        = st.successCount + sumSucc fails bs idx := by
  intro bs
  induction bs with
  | nil => intro idx st; simp [saveLoop, sumSucc]
  | cons b bs ih =>
    intro idx st
    simp only [saveLoop]
    by_cases hf : fails idx = true <;>
      by_cases he : bs.isEmpty = true <;>
        by_cases h5 : (idx % 5 == 0) = true <;>
          simp [hf, he, h5, ih, sumSucc] <;> omega

theorem saveLoop_failed (fails dropsBefore dropsBetween : Nat → Bool) :
    ∀ (bs : List (List Stock)) (idx : Nat) (st : SyncState),
      (saveLoop fails dropsBefore dropsBetween bs idx st).failedCount
        = st.failedCount + sumFail fails bs idx := by
  intro bs
  induction bs with
  | nil => intro idx st; simp [saveLoop, sumFail]
  | cons b bs ih =>
    intro idx st
    simp only [saveLoop]
    by_cases hf : fails idx = true <;>
      by_cases he : bs.isEmpty = true <;>
        by_cases h5 : (idx % 5 == 0) = true <;>
          simp [hf, he, h5, ih, sumFail] <;> omega

theorem saveLoop_store_nodrop (fails dropsBefore dropsBetween : Nat → Bool)
    (hdb : ∀ i, dropsBefore i = false)
    (hdw : ∀ i, dropsBetween i = false) :
    ∀ (bs : List (List Stock)) (idx : Nat) (st : SyncState),
      (saveLoop fails dropsBefore dropsBetween bs idx st).store
        = applyBatches fails bs idx st.store := by
  intro bs
  induction bs with
  | nil => intro idx st; simp [saveLoop, applyBatches]
  | cons b bs ih =>
    intro idx st
    simp only [saveLoop]
    by_cases hf : fails idx = true <;>
      by_cases he : bs.isEmpty = true <;>
        by_cases h5 : (idx % 5 == 0) = true <;>
          simp [hf, he, h5, hdb idx, hdw idx, ih, applyBatches]

theorem saveLoop_janitor (fails dropsBefore dropsBetween : Nat → Bool) :
    ∀ (bs : List (List Stock)) (idx : Nat) (st : SyncState),
      (saveLoop fails dropsBefore dropsBetween bs idx st).janitorAfter
        = st.janitorAfter ++ janSpec idx bs.length := by
  intro bs
  induction bs with
  | nil => intro idx st; simp [saveLoop, janSpec]
  | cons b bs ih =>
    intro idx st
    simp only [saveLoop]
    by_cases he : bs.isEmpty = true
    · have hb : bs = [] := by
        cases bs
        · rfl
        · simp at he
      subst hb
      by_cases hf : fails idx = true <;>
        simp [hf, saveLoop, janSpec]
    · have hlen : (bs.length == 0) = false := by
        cases bs
        · simp at he
        · rfl
      by_cases hf : fails idx = true <;>
        by_cases h5 : (idx % 5 == 0) = true <;>
          simp [hf, he, h5, ih, janSpec, hlen]

theorem sumFail_eq_zero (fails : Nat → Bool) :
    ∀ (bs : List (List Stock)) (k : Nat), (∀ b ∈ bs, b ≠ []) →
      (sumFail fails bs k = 0 ↔ ∀ j < bs.length, fails (k + j) = false) := by
  intro bs
  induction bs with
  | nil => intro k _; simp [sumFail]
  | cons b bs ih =>
    intro k hne
    have hb : b ≠ [] := hne b (by simp)
    have hlen : 0 < b.length := List.length_pos.mpr hb
    have ihk := ih (k + 1) (fun x hx => hne x (by simp [hx]))
    rw [sumFail]
    constructor
    · intro h j hj
      have hz : (if fails k then b.length else 0) = 0 ∧
          sumFail fails bs (k + 1) = 0 := by omega
      have hfk : fails k = false := by
        by_cases hf : fails k = true
        · rw [if_pos hf] at hz; omega
        · cases hc : fails k
          · rfl
          · exact absurd hc hf
      cases j with
      | zero => simpa using hfk
      | succ j' =>
        have hj' : j' < bs.length := by simpa using hj
        have := ihk.mp hz.2 j' hj'
        have harith : k + 1 + j' = k + (j' + 1) := by omega
        rw [harith] at this
        exact this
    · intro h
      have hfk : fails k = false := by
        have := h 0 (by simp)
        simpa using this
      have hrest : ∀ j < bs.length, fails (k + 1 + j) = false := by
        intro j hj
        have := h (j + 1) (by simpa using Nat.succ_lt_succ hj)
        have harith : k + (j + 1) = k + 1 + j := by omega
        rw [harith] at this
        exact this
      rw [hfk]
      simp [ihk.mpr hrest]

/-- Concrete records with pairwise distinct `(ticker, time)` keys. -/
def mkStock (i : Nat) : Stock :=
  ⟨"T" ++ toString i, "Co", "Br", "upgraded by", "Hold", "Buy", "$1.00",
   "$2.00", "2024-01-01T00:00:00Z"⟩

/-- The first `n` distinct-keyed sample records. -/
def stocksN (n : Nat) : List Stock := (List.range n).map mkStock

/-- C2 counterexample: a realizable 26-record, 2-batch run in which every
batch succeeds (the sync reports 26 saved, 0 failed, overall success), yet
batch 0's committed rows are gone at completion: during batch 1's retry
loop a connection-class error triggered a successful `initDB` reconnect,
which drops and recreates the `stocks` table before batch 1 commits — so
it is false that succeeded batches' committed writes always survive the
sync. -/
theorem c2_counterexample :
    (saveStocks true (fun _ => false) (fun i => i == 1) (fun _ => false) []
        (stocksN 26)).1 = .ok () ∧
    (saveStocks true (fun _ => false) (fun i => i == 1) (fun _ => false) []
        (stocksN 26)).2.successCount = 26 ∧
    (saveStocks true (fun _ => false) (fun i => i == 1) (fun _ => false) []
        (stocksN 26)).2.failedCount = 0 ∧
    mkStock 0 ∉ (saveStocks true (fun _ => false) (fun i => i == 1)
        (fun _ => false) [] (stocksN 26)).2.store ∧
    mkStock 25 ∈ (saveStocks true (fun _ => false) (fun i => i == 1)
        (fun _ => false) [] (stocksN 26)).2.store :=
  ⟨rfl, rfl, rfl, by decide, by decide⟩

/-- C2 amended: with the initial connection check passing, the sync
processes batches independently: the reported success count is the total
size of the succeeded batches and the failure count the total size of the
failed batches (a failed batch never stops its siblings), and the sync
returns success iff no batch failed.  Succeeded batches' writes are never
rolled back by a later batch's failure, but they survive to the end of the
sync only when no mid-sync `initDB` re-run (a connection-class reconnect
inside `processBatch`, or a between-batch `checkDBConnection` that
reconnects) drops the table: absent any such drop, the final store is
exactly the initial store with the succeeded batches' statements applied
in order. -/
theorem c2_partial_failure_amended (stocks : List Stock)
    (fails dropsBefore dropsBetween : Nat → Bool) (store0 : List Stock) :
    (saveStocks true fails dropsBefore dropsBetween store0 stocks).2.successCount
      = sumSucc fails (chunks25 stocks) 0 ∧
    (saveStocks true fails dropsBefore dropsBetween store0 stocks).2.failedCount
      = sumFail fails (chunks25 stocks) 0 ∧
    ((∀ i, dropsBefore i = false) → (∀ i, dropsBetween i = false) →
      (saveStocks true fails dropsBefore dropsBetween store0 stocks).2.store
        = applyBatches fails (chunks25 stocks) 0 store0) ∧
    ((saveStocks true fails dropsBefore dropsBetween store0 stocks).1 = .ok () ↔
      ∀ i < (chunks25 stocks).length, fails i = false) := by
  cases hs : stocks with
  | nil =>
    refine ⟨?_, ?_, ?_, ?_⟩
    · simp [saveStocks, chunks25, chunksGo, sumSucc]
    · simp [saveStocks, chunks25, chunksGo, sumFail]
    · intro _ _
      simp [saveStocks, chunks25, chunksGo, applyBatches]
    · simp [saveStocks, chunks25, chunksGo]
  | cons a l =>
    have hbe : stocks.isEmpty = false := by rw [hs]; rfl
    rw [← hs]
    have hsu := saveLoop_success fails dropsBefore dropsBetween
      (chunks25 stocks) 0 ⟨store0, 0, 0, []⟩
    have hfa := saveLoop_failed fails dropsBefore dropsBetween
      (chunks25 stocks) 0 ⟨store0, 0, 0, []⟩
    have hiff := sumFail_eq_zero fails (chunks25 stocks) 0 (chunks25_ne_nil stocks)
    by_cases hfc : (saveLoop fails dropsBefore dropsBetween (chunks25 stocks) 0
        ⟨store0, 0, 0, []⟩).failedCount > 0
    · refine ⟨?_, ?_, ?_, ?_⟩
      · simp [saveStocks, hbe, hfc]
        simpa using hsu
      · simp [saveStocks, hbe, hfc]
        simpa using hfa
      · intro hdb hdw
        have hst := saveLoop_store_nodrop fails dropsBefore dropsBetween hdb hdw
          (chunks25 stocks) 0 ⟨store0, 0, 0, []⟩
        simp [saveStocks, hbe, hfc]
        simpa using hst
      · simp only [saveStocks, hbe, Bool.false_eq_true, if_false, Bool.not_true]
        rw [if_pos hfc]
        simp only [reduceCtorEq, false_iff]
        intro hall
        have hz : sumFail fails (chunks25 stocks) 0 = 0 :=
          hiff.mpr (by intro j hj; simpa using hall j hj)
        have hfa' : (saveLoop fails dropsBefore dropsBetween (chunks25 stocks) 0
            ⟨store0, 0, 0, []⟩).failedCount
              = sumFail fails (chunks25 stocks) 0 := by simpa using hfa
        omega
    · refine ⟨?_, ?_, ?_, ?_⟩
      · simp [saveStocks, hbe, hfc]
        simpa using hsu
      · simp [saveStocks, hbe, hfc]
        simpa using hfa
      · intro hdb hdw
        have hst := saveLoop_store_nodrop fails dropsBefore dropsBetween hdb hdw
          (chunks25 stocks) 0 ⟨store0, 0, 0, []⟩
        simp [saveStocks, hbe, hfc]
        simpa using hst
      · simp only [saveStocks, hbe, Bool.false_eq_true, if_false, Bool.not_true]
        rw [if_neg hfc]
        simp only [true_iff]
        have hfa' : (saveLoop fails dropsBefore dropsBetween (chunks25 stocks) 0
            ⟨store0, 0, 0, []⟩).failedCount
              = sumFail fails (chunks25 stocks) 0 := by simpa using hfa
        have hz : sumFail fails (chunks25 stocks) 0 = 0 := by omega
        intro i hi
        simpa using hiff.mp hz i hi

theorem mem_janSpec :
    ∀ (n k i : Nat), i ∈ janSpec k n ↔ (k ≤ i ∧ i % 5 = 0 ∧ i + 1 < k + n) := by
  intro n
  induction n with
  | zero =>
    intro k i
    simp only [janSpec, List.not_mem_nil, false_iff]
    omega
  | succ m ih =>
    intro k i
    rw [janSpec]
    by_cases hm : (m == 0) = true
    · have hm' : m = 0 := by simpa using hm
      subst hm'
      simp only [janSpec, List.append_nil]
      simp only [beq_self_eq_true, if_true]
      simp only [List.not_mem_nil, false_iff]
      omega
    · have hm' : m ≠ 0 := by simpa using hm
      rw [List.mem_append]
      rw [ih (k + 1) i]
      by_cases h5 : (k % 5 == 0) = true
      · have h5' : k % 5 = 0 := by simpa using h5
        simp only [hm, Bool.false_eq_true, if_false, h5, if_true,
          List.mem_singleton]
        omega
      · have h5' : k % 5 ≠ 0 := by simpa using h5
        simp only [hm, Bool.false_eq_true, if_false, h5, List.not_mem_nil,
          false_or]
        omega

/-- C10 counterexample: a 30-record sync has 2 batches, and the janitor
runs after batch index 0 — the first batch, not a 5th batch (its 1-based
number 1 is not divisible by 5) — so it is false that the janitor runs
after every 5th batch and only then. -/
theorem c10_counterexample :
    (saveStocks true (fun _ => false) (fun _ => false) (fun _ => false) []
        (stocksN 30)).2.janitorAfter = [0] ∧ (0 + 1) % 5 ≠ 0 :=
  ⟨rfl, by decide⟩

/-- C10 amended: the janitor (with its connection re-verification) runs
after exactly the batches whose 0-based index is divisible by 5 — the 1st,
6th, 11th, … batch — and never after the final batch of the run. -/
theorem c10_janitor_schedule (stocks : List Stock)
    (fails dropsBefore dropsBetween : Nat → Bool) (store0 : List Stock) :
    (saveStocks true fails dropsBefore dropsBetween store0 stocks).2.janitorAfter
      = janSpec 0 (chunks25 stocks).length ∧
    (∀ i n, i ∈ janSpec 0 n ↔ (i % 5 = 0 ∧ i + 1 < n)) := by
  constructor
  · cases hs : stocks with
    | nil => simp [saveStocks, chunks25, chunksGo, janSpec]
    | cons a l =>
      have hbe : stocks.isEmpty = false := by rw [hs]; rfl
      rw [← hs]
      have hj := saveLoop_janitor fails dropsBefore dropsBetween
        (chunks25 stocks) 0 ⟨store0, 0, 0, []⟩
      by_cases hfc : (saveLoop fails dropsBefore dropsBetween (chunks25 stocks) 0
          ⟨store0, 0, 0, []⟩).failedCount > 0
      · simp [saveStocks, hbe, hfc]
        simpa using hj
      · simp [saveStocks, hbe, hfc]
        simpa using hj
  · intro i n
    rw [mem_janSpec n 0 i]
    omega
